import Mathlib

/-!
Verification development for the clinical to-do dashboard
(`src/components/Dashboard.tsx` of the `to-do-list` repository).

The TypeScript source is shallowly embedded below:

* Calendar dates (ISO `yyyy-MM-dd` strings parsed by `parseISO`) are
  modelled as integer day numbers, with day `0` chosen to be a Monday,
  so `date-fns` week arithmetic with `weekStartsOn: 1` becomes plain
  integer arithmetic.  Instants (the values produced by `setHours` on a
  parsed date, and `now`) are modelled as integer seconds, a day being
  `86400` seconds.
* JavaScript strings are modelled as `String` / `List Char`; the empty
  string used by the source as "unset" (`dueDate`, `dueTime`,
  `anchorDate`, optional fields) is modelled as `Option`.
* JavaScript `%` on numbers truncates towards zero; it is modelled by
  `Int.tmod`.
* Firestore is modelled as the list of task documents the dashboard's
  live query sees; `updateDoc` / `setDoc` / `deleteDoc` / `addDoc`
  become list transformations keyed by the document id.
* The network calls of the calendar bridges are modelled as the list of
  HTTP requests a call issues (`fetch` without a `method` option is a
  GET) together with the pure mapping from responses to local state.
-/

namespace Dashboard

/-! ### Dates and weeks (date-fns fragment used by the source) -/

/-- A calendar date, as a day number.  Day `0` is a Monday. -/
abbrev Date := Int

/-- Day names as produced by `format(date, 'EEEE').toLowerCase()`. -/
inductive Weekday
  | monday | tuesday | wednesday | thursday | friday | saturday | sunday
deriving DecidableEq, Repr

/-- `getDayName`: the weekday of a date (source line 103; the
empty-string guard of the source cannot arise here because dates are
modelled as day numbers, not strings). -/
def getDayName (d : Date) : Weekday :=
  match (d.emod 7).toNat with
  | 0 => .monday
  | 1 => .tuesday
  | 2 => .wednesday
  | 3 => .thursday
  | 4 => .friday
  | 5 => .saturday
  | _ => .sunday

/-- `startOfWeek(d, { weekStartsOn: 1 })`: the Monday of `d`'s week. -/
def startOfWeekMon (d : Date) : Date := d - d.emod 7

/-- `differenceInCalendarWeeks(d, a, { weekStartsOn: 1 })`: the number of
calendar-week boundaries between the two dates (difference of the Mondays
of their weeks, in weeks). -/
def differenceInCalendarWeeks (d a : Date) : Int :=
  (startOfWeekMon d - startOfWeekMon a) / 7

/-! ### Rota model -/

/-- One day of a weekly schedule.  The source field `end` is renamed
`endTime` (`end` is a Lean keyword). -/
structure DaySchedule where
  start : String
  endTime : String
  isOff : Bool
deriving DecidableEq, Repr

/-- `Record<string, DaySchedule>`: a weekly schedule, possibly missing
entries for some day names. -/
def WeeklySchedule := Weekday → Option DaySchedule

/-- `DEFAULT_DAY` (source line 65). -/
def DEFAULT_DAY : DaySchedule := { start := "09:00", endTime := "17:30", isOff := false }

/-- `DEFAULT_WEEK` (source line 66).  Its `monday` entry is a copy of
`DEFAULT_DAY`. -/
def DEFAULT_WEEK : WeeklySchedule := fun d =>
  match d with
  | .saturday => some { start := "09:00", endTime := "13:00", isOff := false }
  | .sunday => some { start := "00:00", endTime := "00:00", isOff := true }
  | _ => some DEFAULT_DAY

/-- The cycle index computed by `getShiftEndTime`:
`((weeksPassed % rotas.length) + rotas.length) % rotas.length`, with `%`
the truncating JavaScript remainder (`Int.tmod`). -/
def cycleIndex (weeksPassed : Int) (n : Nat) : Nat :=
  (((weeksPassed.tmod n) + n).tmod n).toNat

/-- `getShiftEndTime` (source lines 109-120).  `rotas = none` models a
missing rota list (`!rotas`); `anchorDate = none` models the missing
anchor string, in which case the source falls back to the Monday of the
current (`today`'s) week.  `rs.getD _ DEFAULT_WEEK` models the in-bounds
array access `rotas[cycleIndex]` (the index is proved in bounds below);
`(… day).getD DEFAULT_DAY` models `currentSchedule[day] ||
DEFAULT_WEEK.monday`, `DEFAULT_WEEK.monday` being a copy of
`DEFAULT_DAY`. -/
def getShiftEndTime (dateNum : Date) (rotas : Option (List WeeklySchedule))
    (anchorDate : Option Date) (today : Date) : String :=
  match rotas with
  | none => "17:30"
  | some rs =>
    if rs.length = 0 then "17:30"
    else
      let day := getDayName dateNum
      let anchor := anchorDate.getD (startOfWeekMon today)
      let weeksPassed := differenceInCalendarWeeks dateNum anchor
      let currentSchedule := rs.getD (cycleIndex weeksPassed rs.length) DEFAULT_WEEK
      let daySettings := (currentSchedule day).getD DEFAULT_DAY
      if daySettings.isOff then "17:30" else daySettings.endTime

/-! ### Slash-command expansion (`handleInputChange`, source lines 676-689) -/

/-- A configured slash command. -/
structure SlashCommand where
  trigger : List Char
  expansion : List Char
deriving DecidableEq, Repr

/-- `DEFAULT_SLASH_COMMANDS` (source line 74). -/
def DEFAULT_SLASH_COMMANDS : List SlashCommand :=
  [ { trigger := "/vf".toList, expansion := "Visual Fields Check".toList },
    { trigger := "/oct".toList, expansion := "OCT Scan Review".toList },
    { trigger := "/cl".toList, expansion := "Contact Lens Teach".toList },
    { trigger := "/dil".toList, expansion := "Dilated Fundus Exam".toList },
    { trigger := "/cat".toList, expansion := "Cataract Referral".toList } ]

/-- JavaScript `String.prototype.trim`: strip whitespace from both
ends. -/
def jsTrim (l : List Char) : List Char :=
  ((l.dropWhile Char.isWhitespace).reverse.dropWhile Char.isWhitespace).reverse

/-- JavaScript `str.split(' ')`: split on every single space, keeping
empty segments (`"a  b" ↦ ["a", "", "b"]`, `"" ↦ [""]`). -/
def splitSp : List Char → List (List Char)
  | [] => [[]]
  | c :: cs =>
    match splitSp cs with
    | [] => [[c]]
    | w :: ws => if c = ' ' then [] :: w :: ws else (c :: w) :: ws

/-- `words[words.length - 1]` for `words = val.trim().split(' ')`
(source lines 679-680). -/
def lastWordOf (val : List Char) : List Char :=
  (splitSp (jsTrim val)).getLastD []

/-- `handleInputChange` (source lines 676-689), as the function from the
raw input value to the value stored in the task-description input. -/
def handleInputChange (slashCommands : List SlashCommand) (val : List Char) : List Char :=
  if val.getLast? = some ' ' then
    let lastWord := lastWordOf val
    match slashCommands.find? (fun sc => sc.trigger == lastWord) with
    | some m => (val.take (val.length - (lastWord.length + 1))) ++ m.expansion ++ [' ']
    | none => val
  else val

/-- The claim's reading of the expansion rule, following its words: the
last *whitespace*-separated word of the input, when it is a trigger, is
replaced (together with the whitespace separating it from the end) by
the expansion followed by a single space.  Used only to compare the
claim with `handleInputChange`. -/
def lastWhitespaceWord (val : List Char) : List Char :=
  (val.reverse.dropWhile Char.isWhitespace).takeWhile (fun c => !c.isWhitespace) |>.reverse

/-- Claim-side version of `handleInputChange` (see `lastWhitespaceWord`). -/
def handleInputChangeSpec (slashCommands : List SlashCommand) (val : List Char) : List Char :=
  if val.getLast? = some ' ' then
    let w := lastWhitespaceWord val
    match slashCommands.find? (fun sc => sc.trigger == w) with
    | some m =>
        let stripped := val.reverse.dropWhile Char.isWhitespace |>.reverse
        (stripped.take (stripped.length - w.length)) ++ m.expansion ++ [' ']
    | none => val
  else val

/-! ### Task data model -/

/-- The workflow status of a task (`'todo' | 'in-progress' | 'waiting' |
'done'`). -/
inductive Status
  | todo | inProgress | waiting | done
deriving DecidableEq, Repr

/-- Task priority. -/
inductive Priority
  | low | medium | high
deriving DecidableEq, Repr

/-- The `Todo` record (source lines 11-25).  The empty strings the
source uses for an unset `dueDate` / `dueTime` are `none`; a set
`dueTime` `'HH:MM'` is the pair `(H, M)`; `createdAt` is the Firestore
timestamp in seconds (`none` while the server timestamp is pending). -/
structure Todo where
  id : String
  text : String
  patientName : String
  completed : Bool
  status : Status
  priority : Priority
  uid : String
  category : String
  dueDate : Option Date
  dueTime : Option (Nat × Nat)
  notes : Option String
  sentVia : Option String
  createdAt : Option Int
deriving DecidableEq, Repr

/-! ### Search filter and grouping (`groupedTodos`, source lines 811-836) -/

/-- Lower-cased character list of a string (`toLowerCase`). -/
def lower (s : String) : List Char := s.toList.map Char.toLower

/-- JavaScript `hay.toLowerCase().includes(q.toLowerCase())`. -/
def containsLower (hay q : String) : Bool := decide (lower q <:+: lower hay)

/-- The search filter of `groupedTodos` (source line 812):
`t.text.toLowerCase().includes(q) || (t.patientName &&
t.patientName.toLowerCase().includes(q))`. -/
def matchesSearch (t : Todo) (q : String) : Bool :=
  containsLower t.text q || (t.patientName != "" && containsLower t.patientName q)

/-- The due instant of a task with due date `d`: the due date at the due
time, or at `23:59:59` when no due time is set (source lines 827-829),
in seconds. -/
def dueInstant (d : Date) (dueTime : Option (Nat × Nat)) : Int :=
  d * 86400 +
    match dueTime with
    | some (h, m) => (h * 3600 + m * 60 : Int)
    | none => (23 * 3600 + 59 * 60 + 59 : Int)

/-- The four list-view buckets. -/
inductive Bucket
  | overdue | soon | later | completed
deriving DecidableEq, Repr

/-- The bucket the list-view branch of `groupedTodos` pushes a task
into (source lines 825-833); `now` is in seconds and `addHours(now, 24)`
is `now + 86400`. -/
def bucketOf (t : Todo) (now : Int) : Bucket :=
  if t.completed || t.status == Status.done then .completed
  else
    match t.dueDate with
    | none => .later
    | some d =>
      let due := dueInstant d t.dueTime
      if due < now then .overdue
      else if due < now + 86400 then .soon
      else .later

/-- The list-view groups produced by `groupedTodos`. -/
structure GroupedList where
  overdue : List Todo
  soon : List Todo
  later : List Todo
  completed : List Todo
deriving Repr

/-- `groupedTodos` (list part, source lines 811-836): filter by the
search query, then distribute over the four buckets in order.  (The
board columns built in the same loop are not needed by any claim.) -/
def groupedTodos (todos : List Todo) (q : String) (now : Int) : GroupedList :=
  let filtered := todos.filter (fun t => matchesSearch t q)
  { overdue := filtered.filter (fun t => bucketOf t now == .overdue)
    soon := filtered.filter (fun t => bucketOf t now == .soon)
    later := filtered.filter (fun t => bucketOf t now == .later)
    completed := filtered.filter (fun t => bucketOf t now == .completed) }

/-- Claim-side match predicate, following the claim's words: the task's
text or patient name contains the query, case-insensitively. -/
def matchesQuerySpec (t : Todo) (q : String) : Prop :=
  lower q <:+: lower t.text ∨ lower q <:+: lower t.patientName

/-- The bucket lists of a grouping, indexed by bucket. -/
def bucketLists (g : GroupedList) : Bucket → List Todo
  | .overdue => g.overdue
  | .soon => g.soon
  | .later => g.later
  | .completed => g.completed

/-! ### External calendar model -/

inductive CalSource
  | google | outlook
deriving DecidableEq, Repr

/-- The `CalendarEvent` record (source lines 27-35); the source field
`end` is renamed `eventEnd` (`end` is a Lean keyword); instants are
seconds. -/
structure CalendarEvent where
  id : String
  title : String
  start : Int
  eventEnd : Int
  source : CalSource
  color : String
  calendarName : Option String
deriving DecidableEq, Repr

/-- The `ExternalCalendar` record (source lines 37-42). -/
structure ExternalCalendar where
  id : String
  name : String
  source : CalSource
  isActive : Bool
deriving DecidableEq, Repr

/-! ### Dashboard state and operations -/

/-- The slice of the Dashboard component state the claims are about:
the live task list mirrored from the store, the referral safety-net
modal state, and the external-event state. -/
structure AppState where
  todos : List Todo
  isSafetyModalOpen : Bool
  taskToComplete : Option Todo
  googleEvents : List CalendarEvent
  outlookEvents : List CalendarEvent
  externalCalendars : List ExternalCalendar

/-- Firestore `updateDoc(doc(db, 'todos', id), fields)`: rewrite the
fields of the document with the given id. -/
def updateDocTodos (ts : List Todo) (id : String) (f : Todo → Todo) : List Todo :=
  ts.map (fun t => if t.id == id then f t else t)

/-- The referral guard of the source:
`category === 'Referral' || category === 'Referrals'`. -/
def isReferralCategory (t : Todo) : Bool :=
  t.category == "Referral" || t.category == "Referrals"

/-- The status cycle of `updateStatus` (source line 849). -/
def statusCycle : Status → Status
  | .todo => .inProgress
  | .inProgress => .waiting
  | .waiting => .done
  | .done => .todo

/-- `updateStatus` (source lines 848-860). -/
def updateStatus (todo : Todo) (s : AppState) : AppState :=
  let newStatus := statusCycle todo.status
  if newStatus == Status.done && isReferralCategory todo then
    { s with taskToComplete := some todo, isSafetyModalOpen := true }
  else
    let f : Todo → Todo := fun t =>
      { t with status := newStatus, completed := newStatus == Status.done }
    { s with todos := updateDocTodos s.todos todo.id f }

/-- `toggleComplete` (source lines 862-873). -/
def toggleComplete (todo : Todo) (s : AppState) : AppState :=
  let newCompleted := !todo.completed
  if newCompleted && isReferralCategory todo then
    { s with taskToComplete := some todo, isSafetyModalOpen := true }
  else
    let f : Todo → Todo := fun t =>
      { t with completed := newCompleted
               status := if newCompleted then Status.done else Status.todo }
    { s with todos := updateDocTodos s.todos todo.id f }

/-- The field update `confirmReferralCompletion` writes (source lines
877-881): status `done`, completed, and the chosen method in
`sentVia`. -/
def referralCompletionWrite (method : String) (x : Todo) : Todo :=
  { x with status := Status.done, completed := true, sentVia := some method }

/-- `confirmReferralCompletion` (source lines 875-886). -/
def confirmReferralCompletion (method : String) (s : AppState) : AppState :=
  match s.taskToComplete with
  | none => s
  | some t =>
    { s with todos := updateDocTodos s.todos t.id (referralCompletionWrite method)
             isSafetyModalOpen := false
             taskToComplete := none }

/-- `handleDrop` (source lines 906-920).  `taskId = ""` models a drop
event without the `taskId` payload (`if (taskId)`). -/
def handleDrop (taskId : String) (newStatus : Status) (s : AppState) : AppState :=
  if taskId == "" then s
  else
    let f : Todo → Todo := fun t =>
      { t with status := newStatus, completed := newStatus == Status.done }
    let write : AppState := { s with todos := updateDocTodos s.todos taskId f }
    if newStatus == Status.done then
      match s.todos.find? (fun t => t.id == taskId) with
      | some task =>
        if isReferralCategory task then
          { s with taskToComplete := some task, isSafetyModalOpen := true }
        else write
      | none => write
    else write

/-! ### Task creation (`addTodo`, source lines 841-846) -/

/-- The sentence-builder form state feeding `addTodo`. -/
structure FormState where
  input : String
  patientInput : String
  dueDate : Option Date
  dueTime : Option (Nat × Nat)
  category : String
  priority : Priority
deriving DecidableEq, Repr

/-- `trim` on `String`. -/
def jsTrimStr (s : String) : String := ⟨jsTrim s.toList⟩

/-- The document `addTodo` writes with `addDoc` (source line 844). -/
def newTodoDoc (form : FormState) (uid freshId : String) (nowTs : Int) : Todo :=
  { id := freshId
    text := form.input
    patientName := form.patientInput
    completed := false
    status := .todo
    priority := form.priority
    uid := uid
    category := form.category
    dueDate := form.dueDate
    dueTime := form.dueTime
    notes := none
    sentVia := none
    createdAt := some nowTs }

/-- The form after `addTodo` clears the four inputs (source line 845). -/
def clearedForm (form : FormState) : FormState :=
  { form with input := "", patientInput := "", dueDate := none, dueTime := none }

/-- `addTodo` (source lines 841-846): no-op when both the description
and the patient name are empty after trimming, otherwise append one new
document (with the fresh id Firestore generates) and clear the
inputs. -/
def addTodo (form : FormState) (uid freshId : String) (nowTs : Int) (s : AppState) :
    AppState × FormState :=
  if jsTrimStr form.input == "" && jsTrimStr form.patientInput == "" then (s, form)
  else ({ s with todos := s.todos ++ [newTodoDoc form uid freshId nowTs] }, clearedForm form)

/-! ### Deletion with undo (`deleteTodo`, source lines 894-899) -/

/-- `deleteTodo`: look the task up in the list; when present, delete its
document and return the saved task object captured by the toast's undo
action (the second component). -/
def deleteTodo (id : String) (s : AppState) : AppState × Option Todo :=
  match s.todos.find? (fun t => t.id == id) with
  | none => (s, none)
  | some taskToDelete =>
    ({ s with todos := s.todos.filter (fun t => !(t.id == id)) }, some taskToDelete)

/-- Firestore `setDoc(doc(db, 'todos', id), t)`: create or overwrite the
document with the given id. -/
def setDocTodo (id : String) (t : Todo) (s : AppState) : AppState :=
  if s.todos.any (fun x => x.id == id) then
    { s with todos := updateDocTodos s.todos id (fun _ => t) }
  else
    { s with todos := s.todos ++ [t] }

/-- The undo action offered by `deleteTodo`'s toast:
`setDoc(doc(db, 'todos', id), taskToDelete)`. -/
def undoDelete (id : String) (saved : Todo) (s : AppState) : AppState :=
  setDocTodo id saved s

/-! ### Edit modal (`saveTaskChanges`, source line 902, and
`EditTaskModal`, source lines 450-461) -/

/-- The fields the edit modal lets the user change.  Its form state is
the task object spread with these fields; `completed` and `status` are
not editable there. -/
structure EditForm where
  category : String
  priority : Priority
  patientName : String
  text : String
  notes : Option String
  dueDate : Option Date
  dueTime : Option (Nat × Nat)
deriving DecidableEq, Repr

/-- The form object `EditTaskModal` passes to `saveTaskChanges`:
`{ ...todo }` with the edited fields overwritten. -/
def applyEditForm (base : Todo) (f : EditForm) : Todo :=
  { base with category := f.category, priority := f.priority
              patientName := f.patientName, text := f.text, notes := f.notes
              dueDate := f.dueDate, dueTime := f.dueTime }

/-- Saving the edit modal: `saveTaskChanges(todo.id, form)`, an
`updateDoc` writing every field of the form. -/
def saveTaskChanges (base : Todo) (f : EditForm) (s : AppState) : AppState :=
  { s with todos := updateDocTodos s.todos base.id (fun _ => applyEditForm base f) }

/-- The spec's only stated data invariant: a task's `completed` flag and
`status` field agree. -/
def completedStatusInv (ts : List Todo) : Prop :=
  ∀ t ∈ ts, (t.completed = true ↔ t.status = Status.done)

/-! ### Live subscription (`fetch-data` effect, source lines 637-666) -/

/-- `b.createdAt?.seconds || 0`. -/
def createdSeconds (t : Todo) : Int := t.createdAt.getD 0

/-- The sort comparator applied to the snapshot (source lines 641-645). -/
def compareTodos (a b : Todo) : Int :=
  if a.priority == Priority.high && !(b.priority == Priority.high) && !a.completed then -1
  else if b.priority == Priority.high && !(a.priority == Priority.high) && !b.completed then 1
  else createdSeconds b - createdSeconds a

/-- The snapshot sort (`tasks.sort(...)`), as a stable sort by the
comparator. -/
def sortTodos (ts : List Todo) : List Todo :=
  ts.mergeSort (fun a b => decide (compareTodos a b ≤ 0))

/-- The live query `query(collection(db, 'todos'), where('uid', '==',
user.uid))`: the documents of the store owned by the signed-in user. -/
def subscribedTodos (store : List Todo) (uid : String) : List Todo :=
  store.filter (fun t => t.uid == uid)

/-- The task list the dashboard state holds after a snapshot: the
subscribed documents, sorted (source lines 639-646). -/
def dashboardTasks (store : List Todo) (uid : String) : List Todo :=
  sortTodos (subscribedTodos store uid)

/-! ### External calendar bridges (source lines 692-736) -/

/-- An HTTP request issued with `fetch`; a `fetch` without a `method`
option is a GET. -/
structure Request where
  method : String
  url : String
deriving DecidableEq, Repr

/-- The Google events endpoint queried by `loadGoogleEvents` (the
`timeMin`/`timeMax`/`singleEvents`/`orderBy` query parameters are
omitted from the model). -/
def googleEventsUrl : String :=
  "https://www.googleapis.com/calendar/v3/calendars/primary/events"

/-- A raw item of the Google events response (`summary` may be
absent: `e.summary || 'Busy'`). -/
structure RawGoogleEvent where
  id : String
  summary : Option String
  start : Int
  eventEnd : Int
deriving DecidableEq, Repr

/-- The per-item mapping of `loadGoogleEvents` (source line 701). -/
def mapGoogleEvent (e : RawGoogleEvent) : CalendarEvent :=
  { id := e.id, title := e.summary.getD "Busy", start := e.start
    eventEnd := e.eventEnd, source := .google, color := "emerald", calendarName := none }

/-- The requests `loadGoogleEvents` issues: one GET. -/
def loadGoogleRequests : List Request := [{ method := "GET", url := googleEventsUrl }]

/-- The state update of `loadGoogleEvents` (source lines 692-706):
`resp = none` models `!res.ok` (no state change); otherwise the mapped
items replace the Google-event state.  (The `googleConnected` flag it
also sets is not tracked.) -/
def loadGoogleEvents (resp : Option (List RawGoogleEvent)) (s : AppState) : AppState :=
  match resp with
  | none => s
  | some items => { s with googleEvents := items.map mapGoogleEvent }

/-- The Microsoft Graph calendars endpoint. -/
def outlookCalendarsUrl : String := "https://graph.microsoft.com/v1.0/me/calendars"

/-- The Microsoft Graph events endpoint for one calendar. -/
def outlookEventsUrl (calId : String) : String :=
  outlookCalendarsUrl ++ "/" ++ calId ++ "/events"

/-- A raw item of the Graph calendars response. -/
structure RawOutlookCalendar where
  id : String
  name : String
  isDefaultCalendar : Bool
deriving DecidableEq, Repr

/-- A raw item of a Graph events response. -/
structure RawOutlookEvent where
  id : String
  subject : String
  start : Int
  eventEnd : Int
deriving DecidableEq, Repr

/-- The merge of a Graph calendar with the activation state saved in
`localStorage` (source lines 717-720): keep the saved `isActive` when
present, else default to `isDefaultCalendar`. -/
def mergeOutlookCalendar (saved : List (String × Bool)) (c : RawOutlookCalendar) :
    ExternalCalendar :=
  { id := c.id, name := c.name, source := .outlook
    isActive := ((saved.find? (fun p => p.1 == c.id)).map Prod.snd).getD c.isDefaultCalendar }

/-- The requests `loadOutlookData` issues: the calendars GET, and (when
that call succeeds, `cals = some cs`) one events GET per active
calendar. -/
def loadOutlookRequests (saved : List (String × Bool))
    (cals : Option (List RawOutlookCalendar)) : List Request :=
  match cals with
  | none => [{ method := "GET", url := outlookCalendarsUrl }]
  | some cs =>
    let merged := cs.map (mergeOutlookCalendar saved)
    { method := "GET", url := outlookCalendarsUrl } ::
      (merged.filter (fun c => c.isActive)).map
        (fun c => { method := "GET", url := outlookEventsUrl c.id })

/-- The state update of `loadOutlookData` (source lines 708-736):
`cals = none` models a failed calendars call (only connection flags, not
tracked, change); otherwise the merged calendar list replaces the
Outlook part of `externalCalendars` and the events fetched for the
active calendars replace the Outlook-event state.  `events` is the
response of the per-calendar events call. -/
def loadOutlookData (saved : List (String × Bool))
    (cals : Option (List RawOutlookCalendar))
    (events : String → List RawOutlookEvent) (s : AppState) : AppState :=
  match cals with
  | none => s
  | some cs =>
    let merged := cs.map (mergeOutlookCalendar saved)
    let activeIds := ((merged.filter (fun c => c.isActive)).map (fun c => c.id))
    let mapEvent : String → RawOutlookEvent → CalendarEvent := fun calId e =>
      { id := e.id, title := e.subject, start := e.start, eventEnd := e.eventEnd
        source := .outlook, color := "sky"
        calendarName := (merged.find? (fun c => c.id == calId)).map (fun c => c.name) }
    let allEvents := activeIds.flatMap (fun calId => (events calId).map (mapEvent calId))
    { s with externalCalendars :=
               (s.externalCalendars.filter (fun c => c.source == CalSource.google)) ++ merged
             outlookEvents := allEvents }

/-! ### The operations of the Dashboard, as one step relation -/

/-- Every state-changing operation of the Dashboard modelled above.
The network-response and fresh-id inputs an operation consumes are
carried as constructor arguments. -/
inductive Op
  | updateStatusOp (t : Todo)
  | toggleCompleteOp (t : Todo)
  | handleDropOp (taskId : String) (newStatus : Status)
  | confirmReferralOp (method : String)
  | addTodoOp (form : FormState) (uid freshId : String) (nowTs : Int)
  | deleteTodoOp (id : String)
  | undoDeleteOp (id : String) (saved : Todo)
  | saveEditOp (base : Todo) (f : EditForm)
  | loadGoogleOp (resp : Option (List RawGoogleEvent))
  | loadOutlookOp (saved : List (String × Bool))
      (cals : Option (List RawOutlookCalendar)) (events : String → List RawOutlookEvent)

/-- The state transition of an operation. -/
def Op.step : Op → AppState → AppState
  | .updateStatusOp t, s => updateStatus t s
  | .toggleCompleteOp t, s => toggleComplete t s
  | .handleDropOp taskId newStatus, s => handleDrop taskId newStatus s
  | .confirmReferralOp method, s => confirmReferralCompletion method s
  | .addTodoOp form uid freshId nowTs, s => (addTodo form uid freshId nowTs s).1
  | .deleteTodoOp id, s => (deleteTodo id s).1
  | .undoDeleteOp id saved, s => undoDelete id saved s
  | .saveEditOp base f, s => saveTaskChanges base f s
  | .loadGoogleOp resp, s => loadGoogleEvents resp s
  | .loadOutlookOp saved cals events, s => loadOutlookData saved cals events s

/-- The HTTP requests an operation issues to the third-party calendar
APIs.  The task operations talk only to the Firestore SDK, never to a
calendar API. -/
def Op.issues : Op → List Request
  | .loadGoogleOp _ => loadGoogleRequests
  | .loadOutlookOp saved cals _ => loadOutlookRequests saved cals
  | _ => []

/-- Whether an operation is one of the local task mutations. -/
def Op.isTaskMutation : Op → Bool
  | .loadGoogleOp _ => false
  | .loadOutlookOp _ _ _ => false
  | _ => true

/-- Whether an operation is one of the calendar bridge loads. -/
def Op.isCalendarLoad : Op → Bool
  | .loadGoogleOp _ => true
  | .loadOutlookOp _ _ _ => true
  | _ => false

/-! ### Concrete sample data, used to instantiate the theorems -/

/-- A pending referral task. -/
def sampleReferral : Todo :=
  { id := "r1", text := "Cataract referral", patientName := "Jones"
    completed := false, status := .waiting, priority := .high, uid := "u1"
    category := "Referral", dueDate := some 1, dueTime := some (17, 30)
    notes := none, sentVia := none, createdAt := some 10 }

/-- An ordinary open task. -/
def sampleTask : Todo :=
  { id := "t1", text := "Order contact lenses", patientName := "Smith"
    completed := false, status := .todo, priority := .medium, uid := "u1"
    category := "General", dueDate := none, dueTime := none
    notes := none, sentVia := none, createdAt := some 5 }

/-- A task owned by a different user. -/
def otherUserTask : Todo :=
  { id := "x9", text := "Private note", patientName := ""
    completed := false, status := .todo, priority := .low, uid := "u2"
    category := "General", dueDate := none, dueTime := none
    notes := none, sentVia := none, createdAt := some 7 }

/-- A dashboard state holding the two sample tasks, with the referral
pending in the safety-net modal. -/
def sampleState : AppState :=
  { todos := [sampleReferral, sampleTask]
    isSafetyModalOpen := false
    taskToComplete := some sampleReferral
    googleEvents := []
    outlookEvents := []
    externalCalendars := [] }

end Dashboard

namespace Dashboard

/-! ## Theorems

Shared helper lemmas first, then one theorem per claim (with its
witness or counterexample). -/

theorem tmod_emod_self (a : Int) (n : Int) : (a.tmod n) % n = a % n := by
  rw [Int.tmod_def, Int.sub_eq_add_neg, ← Int.mul_neg, Int.add_mul_emod_self_left]

theorem tmod_cycle (w : Int) (n : Nat) (h : 0 < n) :
    ((w.tmod n) + n).tmod n = w.emod n := by
  have hn : (0 : Int) < (n : Int) := by exact_mod_cast h
  have hb : (0 : Int) ≤ w.tmod n + n := by
    rcases w with m | m
    · have : (Int.ofNat m).tmod n = Int.ofNat (m % n) := rfl
      rw [this]
      have : (0 : Int) ≤ Int.ofNat (m % n) := Int.ofNat_nonneg _
      omega
    · have : (Int.negSucc m).tmod n = -Int.ofNat (Nat.succ m % n) := by
        cases n with
        | zero => omega
        | succ k => rfl
      rw [this]
      have h2 : Nat.succ m % n < n := Nat.mod_lt _ h
      have h3 : ((Nat.succ m % n : Nat) : Int) < (n : Int) := by exact_mod_cast h2
      simp only [Int.ofNat_eq_natCast] at *
      omega
  have ht := tmod_emod_self w n
  rw [Int.tmod_eq_emod hb (le_of_lt hn)]
  have h1 : (w.tmod n + n) % (n : Int) = (w.tmod n + n * 1) % (n : Int) := by ring_nf
  rw [h1, Int.add_mul_emod_self_left, ht]
  rfl

/-- The cycle index is the euclidean modulus of the week offset. -/
theorem cycleIndex_eq_emod (w : Int) (n : Nat) (h : 0 < n) :
    (cycleIndex w n : Int) = w.emod n := by
  unfold cycleIndex
  rw [tmod_cycle w n h]
  exact Int.toNat_of_nonneg (Int.emod_nonneg w (by omega))

/-- The cycle index is in bounds. -/
theorem cycleIndex_lt (w : Int) (n : Nat) (h : 0 < n) : cycleIndex w n < n := by
  have h1 := cycleIndex_eq_emod w n h
  have h2 : w.emod n < n := Int.emod_lt_of_pos w (by exact_mod_cast h)
  omega

/-- Evaluation of `getShiftEndTime` on a non-empty rota list with a
given anchor. -/
theorem getShiftEndTime_some (rs : List WeeklySchedule) (hne : rs ≠ [])
    (a d today : Date) :
    getShiftEndTime d (some rs) (some a) today =
      (let daySettings :=
        ((rs.getD (cycleIndex (differenceInCalendarWeeks d a) rs.length) DEFAULT_WEEK)
          (getDayName d)).getD DEFAULT_DAY
      if daySettings.isOff then "17:30" else daySettings.endTime) := by
  have hlen : rs.length ≠ 0 := fun h0 => hne (List.length_eq_zero.mp h0)
  simp only [getShiftEndTime, Option.getD_some, if_neg hlen]

/-- C1 (corrected: the claim's modular-index part, together with the
end-time lookup restricted to the case the counterexample allows):
for a non-empty rota list, `getShiftEndTime` looks the week up at the
cycle index `((w % n) + n) % n`, which equals the mathematical modulus
of the calendar-week offset `w` and lies in `[0, n)` even for negative
`w`; when the selected week has an entry for the target date's weekday
and that entry is not marked off, the result is that entry's end
time. -/
theorem C1_rota_cycle_lookup (rs : List WeeklySchedule) (hne : rs ≠ [])
    (a d today : Date) :
    (cycleIndex (differenceInCalendarWeeks d a) rs.length : Int) =
        (differenceInCalendarWeeks d a).emod rs.length ∧
    cycleIndex (differenceInCalendarWeeks d a) rs.length < rs.length ∧
    (∀ ds : DaySchedule,
      (rs.getD (cycleIndex (differenceInCalendarWeeks d a) rs.length) DEFAULT_WEEK)
          (getDayName d) = some ds →
      ds.isOff = false →
      getShiftEndTime d (some rs) (some a) today = ds.endTime) := by
  have hn : 0 < rs.length := List.length_pos.mpr hne
  refine ⟨cycleIndex_eq_emod _ _ hn, cycleIndex_lt _ _ hn, ?_⟩
  intro ds hds hoff
  rw [getShiftEndTime_some rs hne a d today]
  simp only [hds, Option.getD_some, hoff]
  simp

/-- Witness for `C1_rota_cycle_lookup`: one rota week, anchor the Monday
day `0`, target the Wednesday day `2`; the schedule entry for Wednesday
is the default working day, so the end time is its `17:30`. -/
theorem C1_rota_cycle_lookup_witness :
    ([DEFAULT_WEEK] : List WeeklySchedule) ≠ [] ∧
    getShiftEndTime 2 (some [DEFAULT_WEEK]) (some 0) 0 = "17:30" := by
  have h := C1_rota_cycle_lookup [DEFAULT_WEEK] (by simp) 0 2 0
  exact ⟨by simp, h.2.2 DEFAULT_DAY rfl rfl⟩

/-- C1 counterexample: with the single default rota week, an anchor on
the Monday day `0` and the Sunday day `6` as target, the selected week's
entry for the weekday of the target date has end time `"00:00"`, but
`getShiftEndTime` returns `"17:30"` (the entry is marked off), so the
function does not return "that week's end time for the weekday of d" as
the claim states. -/
theorem C1_counterexample :
    getDayName 6 = Weekday.sunday ∧
    (([DEFAULT_WEEK].getD (cycleIndex (differenceInCalendarWeeks 6 0) 1) DEFAULT_WEEK)
        Weekday.sunday) =
      some { start := "00:00", endTime := "00:00", isOff := true } ∧
    getShiftEndTime 6 (some [DEFAULT_WEEK]) (some 0) 0 = "17:30" ∧
    ("17:30" : String) ≠ "00:00" := by
  refine ⟨rfl, rfl, rfl, by decide⟩

/-- C9: `getShiftEndTime` is total: a missing or empty rota list yields
`"17:30"`; the cycle index is always in bounds; a weekday missing from
the selected week falls back to the default Monday schedule (whose end
time is `"17:30"`); and an off day yields `"17:30"`. -/
theorem C9_getShiftEndTime_total (d a today : Date) (rs : List WeeklySchedule)
    (hne : rs ≠ []) (w : Int) (n : Nat) (hn : 0 < n) :
    getShiftEndTime d none (some a) today = "17:30" ∧
    getShiftEndTime d (some []) (some a) today = "17:30" ∧
    cycleIndex w n < n ∧
    ((rs.getD (cycleIndex (differenceInCalendarWeeks d a) rs.length) DEFAULT_WEEK)
        (getDayName d) = none →
      getShiftEndTime d (some rs) (some a) today = DEFAULT_DAY.endTime ∧
      DEFAULT_DAY.endTime = "17:30") ∧
    (∀ ds : DaySchedule,
      (rs.getD (cycleIndex (differenceInCalendarWeeks d a) rs.length) DEFAULT_WEEK)
          (getDayName d) = some ds →
      ds.isOff = true →
      getShiftEndTime d (some rs) (some a) today = "17:30") := by
  refine ⟨rfl, rfl, cycleIndex_lt w n hn, ?_, ?_⟩
  · intro hmiss
    rw [getShiftEndTime_some rs hne a d today]
    simp only [hmiss, Option.getD_none]
    exact ⟨rfl, rfl⟩
  · intro ds hds hoff
    rw [getShiftEndTime_some rs hne a d today]
    simp only [hds, Option.getD_some, hoff]
    simp

/-- The source's search filter agrees with the claim's wording: the
special-casing of an empty patient name only matters for the empty
query, which every text matches anyway. -/
theorem matchesSearch_iff (t : Todo) (q : String) :
    matchesSearch t q = true ↔ matchesQuerySpec t q := by
  unfold matchesSearch matchesQuerySpec containsLower
  rw [Bool.or_eq_true, Bool.and_eq_true, decide_eq_true_iff, decide_eq_true_iff]
  constructor
  · rintro (h | ⟨hp, h⟩)
    · exact Or.inl h
    · exact Or.inr h
  · rintro (h | h)
    · exact Or.inl h
    · by_cases hp : t.patientName = ""
      · left
        rw [hp] at h
        have hq : lower q = [] := by
          have : lower "" = ([] : List Char) := rfl
          rw [this] at h
          exact List.eq_nil_of_infix_nil h
        rw [hq]
        exact List.nil_infix
      · right
        exact ⟨bne_iff_ne.mpr hp, h⟩

/-- The bucket a task lands in, spelt out per bucket. -/
theorem bucketOf_eq_iff (t : Todo) (now : Int) :
    (bucketOf t now = Bucket.completed ↔ (t.completed = true ∨ t.status = Status.done)) ∧
    (bucketOf t now = Bucket.overdue ↔
      ¬(t.completed = true ∨ t.status = Status.done) ∧
      ∃ d, t.dueDate = some d ∧ dueInstant d t.dueTime < now) ∧
    (bucketOf t now = Bucket.soon ↔
      ¬(t.completed = true ∨ t.status = Status.done) ∧
      ∃ d, t.dueDate = some d ∧ now ≤ dueInstant d t.dueTime ∧
        dueInstant d t.dueTime < now + 86400) ∧
    (bucketOf t now = Bucket.later ↔
      ¬(t.completed = true ∨ t.status = Status.done) ∧
      (t.dueDate = none ∨
        ∃ d, t.dueDate = some d ∧ now + 86400 ≤ dueInstant d t.dueTime)) := by
  have hc : (t.completed || t.status == Status.done) = true ↔
      (t.completed = true ∨ t.status = Status.done) := by
    rw [Bool.or_eq_true, beq_iff_eq]
  by_cases h : (t.completed || t.status == Status.done) = true
  · have hP : t.completed = true ∨ t.status = Status.done := hc.mp h
    have e : bucketOf t now = Bucket.completed := by simp [bucketOf, h]
    rw [e]
    exact ⟨iff_of_true rfl hP,
      iff_of_false (by decide) (fun hh => hh.1 hP),
      iff_of_false (by decide) (fun hh => hh.1 hP),
      iff_of_false (by decide) (fun hh => hh.1 hP)⟩
  · have hP : ¬(t.completed = true ∨ t.status = Status.done) := fun hh => h (hc.mpr hh)
    cases hd : t.dueDate with
    | none =>
      have e : bucketOf t now = Bucket.later := by simp [bucketOf, h, hd]
      rw [e]
      refine ⟨iff_of_false (by decide) hP, ?_, ?_, iff_of_true rfl ⟨hP, Or.inl rfl⟩⟩
      · refine iff_of_false (by decide) ?_
        rintro ⟨-, d2, hd2, -⟩
        exact Option.noConfusion hd2
      · refine iff_of_false (by decide) ?_
        rintro ⟨-, d2, hd2, -⟩
        exact Option.noConfusion hd2
    | some d =>
      by_cases h1 : dueInstant d t.dueTime < now
      · have e : bucketOf t now = Bucket.overdue := by simp [bucketOf, h, hd, h1]
        rw [e]
        refine ⟨iff_of_false (by decide) hP, iff_of_true rfl ⟨hP, d, rfl, h1⟩, ?_, ?_⟩
        · refine iff_of_false (by decide) ?_
          rintro ⟨-, d2, hd2, h2, -⟩
          injection hd2 with ee; subst ee; omega
        · refine iff_of_false (by decide) ?_
          rintro ⟨-, h2 | ⟨d2, hd2, h2⟩⟩
          · exact Option.noConfusion h2
          · injection hd2 with ee; subst ee; omega
      · by_cases h2 : dueInstant d t.dueTime < now + 86400
        · have e : bucketOf t now = Bucket.soon := by simp [bucketOf, h, hd, h1, h2]
          rw [e]
          refine ⟨iff_of_false (by decide) hP, ?_,
            iff_of_true rfl ⟨hP, d, rfl, by omega, h2⟩, ?_⟩
          · refine iff_of_false (by decide) ?_
            rintro ⟨-, d2, hd2, h3⟩
            injection hd2 with ee; subst ee; omega
          · refine iff_of_false (by decide) ?_
            rintro ⟨-, h3 | ⟨d2, hd2, h3⟩⟩
            · exact Option.noConfusion h3
            · injection hd2 with ee; subst ee; omega
        · have e : bucketOf t now = Bucket.later := by simp [bucketOf, h, hd, h1, h2]
          rw [e]
          refine ⟨iff_of_false (by decide) hP, ?_, ?_,
            iff_of_true rfl ⟨hP, Or.inr ⟨d, rfl, by omega⟩⟩⟩
          · refine iff_of_false (by decide) ?_
            rintro ⟨-, d2, hd2, h3⟩
            injection hd2 with ee; subst ee; omega
          · refine iff_of_false (by decide) ?_
            rintro ⟨-, d2, hd2, h3, h4⟩
            injection hd2 with ee; subst ee; omega

/-- Membership in a bucket list of `groupedTodos`. -/
theorem mem_groupedTodos (todos : List Todo) (q : String) (now : Int)
    (t : Todo) (b : Bucket) :
    t ∈ bucketLists (groupedTodos todos q now) b ↔
      t ∈ todos ∧ matchesSearch t q = true ∧ bucketOf t now = b := by
  cases b <;>
    simp only [groupedTodos, bucketLists, List.mem_filter, beq_iff_eq, and_assoc]

/-- C2: every task matching the search query lands in exactly one of the
four list buckets, characterized as the claim states: `completed` iff
the completed flag is set or the status is `done`; otherwise by the due
instant (due date at due time, or at `23:59:59`) against `now` and
`now + 24h`; tasks without a due date go to `later`. -/
theorem C2_groupedTodos_buckets (todos : List Todo) (q : String) (now : Int)
    (t : Todo) (ht : t ∈ todos) :
    (t ∈ (groupedTodos todos q now).completed ↔
      matchesQuerySpec t q ∧ (t.completed = true ∨ t.status = Status.done)) ∧
    (t ∈ (groupedTodos todos q now).overdue ↔
      matchesQuerySpec t q ∧ ¬(t.completed = true ∨ t.status = Status.done) ∧
      ∃ d, t.dueDate = some d ∧ dueInstant d t.dueTime < now) ∧
    (t ∈ (groupedTodos todos q now).soon ↔
      matchesQuerySpec t q ∧ ¬(t.completed = true ∨ t.status = Status.done) ∧
      ∃ d, t.dueDate = some d ∧ now ≤ dueInstant d t.dueTime ∧
        dueInstant d t.dueTime < now + 86400) ∧
    (t ∈ (groupedTodos todos q now).later ↔
      matchesQuerySpec t q ∧ ¬(t.completed = true ∨ t.status = Status.done) ∧
      (t.dueDate = none ∨
        ∃ d, t.dueDate = some d ∧ now + 86400 ≤ dueInstant d t.dueTime)) ∧
    (matchesQuerySpec t q →
      ∃! b : Bucket, t ∈ bucketLists (groupedTodos todos q now) b) := by
  have hb := bucketOf_eq_iff t now
  have key : ∀ b, t ∈ bucketLists (groupedTodos todos q now) b ↔
      (matchesQuerySpec t q ∧ bucketOf t now = b) := by
    intro b
    refine (mem_groupedTodos todos q now t b).trans ?_
    rw [matchesSearch_iff]
    tauto
  refine ⟨?_, ?_, ?_, ?_, ?_⟩
  · refine (key .completed).trans ?_
    rw [hb.1]
  · refine (key .overdue).trans ?_
    rw [hb.2.1]
  · refine (key .soon).trans ?_
    rw [hb.2.2.1]
  · refine (key .later).trans ?_
    rw [hb.2.2.2]
  · intro hq
    refine ⟨bucketOf t now, (key _).mpr ⟨hq, rfl⟩, ?_⟩
    intro b hbmem
    exact (((key b).mp hbmem).2).symm

/-- Witness for `C2_groupedTodos_buckets`: a single uncompleted task due
within the next day, matching the empty query, lands in `soon` and in no
other bucket. -/
theorem C2_groupedTodos_buckets_witness :
    (let t : Todo :=
      { id := "a", text := "Check pressures", patientName := "Smith"
        completed := false, status := .todo, priority := .medium, uid := "u"
        category := "General", dueDate := some 0, dueTime := some (12, 0)
        notes := none, sentVia := none, createdAt := some 0 }
    t ∈ ([t] : List Todo) ∧
      (t ∈ (groupedTodos [t] "smi" 0).soon ↔
        matchesQuerySpec t "smi" ∧ ¬(t.completed = true ∨ t.status = Status.done) ∧
        ∃ d, t.dueDate = some d ∧ (0 : Int) ≤ dueInstant d t.dueTime ∧
          dueInstant d t.dueTime < 0 + 86400)) := by
  refine ⟨List.mem_singleton_self _, ?_⟩
  exact (C2_groupedTodos_buckets _ "smi" 0 _ (List.mem_singleton_self _)).2.2.1

/-- Witness for `C9_getShiftEndTime_total`: a one-week rota whose only
schedule has no entry for any weekday, so the Monday fallback fires; and
the default week's Sunday, which is marked off. -/
theorem C9_getShiftEndTime_total_witness :
    (([fun _ => none] : List WeeklySchedule) ≠ [] ∧ 0 < 3) ∧
    getShiftEndTime 2 (some [fun _ => none]) (some 0) 0 = DEFAULT_DAY.endTime ∧
    getShiftEndTime 6 (some [DEFAULT_WEEK]) (some 0) 0 = "17:30" := by
  have h1 := C9_getShiftEndTime_total 2 0 0 [fun _ => none] (by simp) 5 3 (by decide)
  have h2 := C9_getShiftEndTime_total 6 0 0 [DEFAULT_WEEK] (by simp) 5 3 (by decide)
  exact ⟨⟨by simp, by decide⟩, (h1.2.2.2.1 rfl).1,
    h2.2.2.2.2 { start := "00:00", endTime := "00:00", isOff := true } rfl rfl⟩

/-- C3: a `'Referral'`-category task is never completed without a
delivery method.  Each completing operation — `toggleComplete` on an
uncompleted referral, `updateStatus` cycling `waiting` to `done`, and a
board drop onto the `done` column — leaves the stored task list
unchanged and opens the safety-net modal with the task pending; only
`confirmReferralCompletion` writes the completion, setting status
`done`, `completed`, and the chosen method in `sentVia`. -/
theorem C3_referral_safety_net (s : AppState) (t : Todo) (method : String) :
    (t.category = "Referral" → t.completed = false →
      (toggleComplete t s).todos = s.todos ∧
      (toggleComplete t s).isSafetyModalOpen = true ∧
      (toggleComplete t s).taskToComplete = some t) ∧
    (t.category = "Referral" → t.status = Status.waiting →
      (updateStatus t s).todos = s.todos ∧
      (updateStatus t s).isSafetyModalOpen = true ∧
      (updateStatus t s).taskToComplete = some t) ∧
    (t.category = "Referral" → t.id ≠ "" →
      s.todos.find? (fun x => x.id == t.id) = some t →
      (handleDrop t.id Status.done s).todos = s.todos ∧
      (handleDrop t.id Status.done s).isSafetyModalOpen = true ∧
      (handleDrop t.id Status.done s).taskToComplete = some t) ∧
    (s.taskToComplete = some t →
      (confirmReferralCompletion method s).todos =
        updateDocTodos s.todos t.id (referralCompletionWrite method) ∧
      (confirmReferralCompletion method s).isSafetyModalOpen = false ∧
      (confirmReferralCompletion method s).taskToComplete = none) ∧
    (referralCompletionWrite method t).status = Status.done ∧
    (referralCompletionWrite method t).completed = true ∧
    (referralCompletionWrite method t).sentVia = some method := by
  refine ⟨?_, ?_, ?_, ?_, rfl, rfl, rfl⟩
  · intro hcat hcomp
    refine ⟨?_, ?_, ?_⟩ <;>
      simp [toggleComplete, hcomp, isReferralCategory, hcat]
  · intro hcat hst
    refine ⟨?_, ?_, ?_⟩ <;>
      simp [updateStatus, hst, statusCycle, isReferralCategory, hcat]
  · intro hcat hid hfind
    have hne : (t.id == "") = false := beq_eq_false_iff_ne.mpr hid
    refine ⟨?_, ?_, ?_⟩ <;>
      simp [handleDrop, hne, hfind, isReferralCategory, hcat]
  · intro httc
    refine ⟨?_, ?_, ?_⟩ <;>
      simp [confirmReferralCompletion, httc]

/-- Witness for `C3_referral_safety_net`: the sample referral in the
sample state. -/
theorem C3_referral_safety_net_witness :
    (sampleReferral.category = "Referral" ∧ sampleReferral.completed = false ∧
      sampleReferral.status = Status.waiting ∧
      sampleState.taskToComplete = some sampleReferral) ∧
    (toggleComplete sampleReferral sampleState).todos = sampleState.todos ∧
    (toggleComplete sampleReferral sampleState).isSafetyModalOpen = true ∧
    (updateStatus sampleReferral sampleState).todos = sampleState.todos ∧
    (confirmReferralCompletion "NHS Email" sampleState).todos =
      updateDocTodos sampleState.todos sampleReferral.id
        (referralCompletionWrite "NHS Email") := by
  have h := C3_referral_safety_net sampleState sampleReferral "NHS Email"
  exact ⟨⟨rfl, rfl, rfl, rfl⟩, (h.1 rfl rfl).1, (h.1 rfl rfl).2.1,
    (h.2.1 rfl rfl).1, (h.2.2.2.1 rfl).1⟩

/-- `updateDocTodos` preserves the completed/status invariant whenever
the written fields satisfy it. -/
theorem completedStatusInv_updateDoc (ts : List Todo) (id : String) (f : Todo → Todo)
    (h : completedStatusInv ts)
    (hf : ∀ t ∈ ts, ((f t).completed = true ↔ (f t).status = Status.done)) :
    completedStatusInv (updateDocTodos ts id f) := by
  intro x hx
  rw [updateDocTodos, List.mem_map] at hx
  obtain ⟨t, ht, rfl⟩ := hx
  by_cases hid : (t.id == id) = true
  · simp only [hid, if_true]
    exact hf t ht
  · simp only [hid, if_false]
    exact h t ht

/-- C4: every task write of the Dashboard preserves the invariant that a
task's `completed` flag agrees with its `status` field (`completed` iff
status `done`): `addTodo`, `toggleComplete`, `updateStatus`,
`handleDrop`, `confirmReferralCompletion`, and saving the edit modal
(whose form carries the task's own `completed`/`status` through
unchanged). -/
theorem C4_completed_status_agree (s : AppState) (hs : completedStatusInv s.todos) :
    (∀ form uid freshId nowTs,
      completedStatusInv ((addTodo form uid freshId nowTs s).1).todos) ∧
    (∀ t, completedStatusInv (toggleComplete t s).todos) ∧
    (∀ t, completedStatusInv (updateStatus t s).todos) ∧
    (∀ taskId newStatus, completedStatusInv (handleDrop taskId newStatus s).todos) ∧
    (∀ method, completedStatusInv (confirmReferralCompletion method s).todos) ∧
    (∀ base f, base ∈ s.todos → completedStatusInv (saveTaskChanges base f s).todos) := by
  refine ⟨?_, ?_, ?_, ?_, ?_, ?_⟩
  · intro form uid freshId nowTs
    unfold addTodo
    by_cases hempty :
        (jsTrimStr form.input == "" && jsTrimStr form.patientInput == "") = true
    · rw [if_pos hempty]
      exact hs
    · rw [if_neg hempty]
      intro x hx
      rcases List.mem_append.mp hx with hx | hx
      · exact hs x hx
      · rcases List.mem_singleton.mp hx with rfl
        simp [newTodoDoc]
  · intro t
    unfold toggleComplete
    by_cases hg : (!t.completed && isReferralCategory t) = true
    · simp only [hg, if_true]
      exact hs
    · simp only [hg, if_false]
      refine completedStatusInv_updateDoc _ _ _ hs ?_
      intro x hx
      cases hb : t.completed <;> simp [hb]
  · intro t
    unfold updateStatus
    by_cases hg : (statusCycle t.status == Status.done && isReferralCategory t) = true
    · simp only [hg, if_true]
      exact hs
    · simp only [hg, if_false]
      refine completedStatusInv_updateDoc _ _ _ hs ?_
      intro x hx
      simp [beq_iff_eq]
  · intro taskId newStatus
    unfold handleDrop
    by_cases hid : (taskId == "") = true
    · simp only [hid, if_true]
      exact hs
    · simp only [hid, if_false]
      by_cases hdone : (newStatus == Status.done) = true
      · rw [if_pos hdone]
        cases hfind : s.todos.find? (fun t => t.id == taskId) with
        | none =>
          simp only [hfind]
          refine completedStatusInv_updateDoc _ _ _ hs ?_
          intro x hx
          exact beq_iff_eq
        | some task =>
          simp only [hfind]
          by_cases href : isReferralCategory task = true
          · rw [if_pos href]
            exact hs
          · rw [if_neg href]
            refine completedStatusInv_updateDoc _ _ _ hs ?_
            intro x hx
            exact beq_iff_eq
      · rw [if_neg hdone]
        refine completedStatusInv_updateDoc _ _ _ hs ?_
        intro x hx
        exact beq_iff_eq
  · intro method
    unfold confirmReferralCompletion
    cases httc : s.taskToComplete with
    | none => exact hs
    | some t =>
      refine completedStatusInv_updateDoc _ _ _ hs ?_
      intro x hx
      simp [referralCompletionWrite]
  · intro base f hbase
    unfold saveTaskChanges
    refine completedStatusInv_updateDoc _ _ _ hs ?_
    intro x hx
    simpa [applyEditForm] using hs base hbase

/-- Witness for `C4_completed_status_agree`: the sample state satisfies
the invariant, and completing the sample (non-referral) task keeps it. -/
theorem C4_completed_status_agree_witness :
    completedStatusInv sampleState.todos ∧
    completedStatusInv (toggleComplete sampleTask sampleState).todos ∧
    completedStatusInv (updateStatus sampleTask sampleState).todos := by
  have hinv : completedStatusInv sampleState.todos := by
    intro t ht
    rcases List.mem_cons.mp ht with rfl | ht
    · simp [sampleReferral]
    rcases List.mem_singleton.mp ht with rfl
    simp [sampleTask]
  have h := C4_completed_status_agree sampleState hinv
  exact ⟨hinv, h.2.1 sampleTask, h.2.2.1 sampleTask⟩

/-- C6: task ownership isolation.  The dashboard's task list is a
function of the documents owned by the signed-in user alone: it contains
only tasks with the user's uid, two stores agreeing on the user's
documents produce the same list, and every document `addTodo` creates is
stamped with the user's uid. -/
theorem C6_user_isolation (store1 store2 : List Todo) (uid : String)
    (h : subscribedTodos store1 uid = subscribedTodos store2 uid) :
    dashboardTasks store1 uid = dashboardTasks store2 uid ∧
    (∀ t ∈ dashboardTasks store1 uid, t.uid = uid) ∧
    (∀ form freshId nowTs, (newTodoDoc form uid freshId nowTs).uid = uid) := by
  refine ⟨by unfold dashboardTasks; rw [h], ?_, fun form freshId nowTs => rfl⟩
  intro t ht
  unfold dashboardTasks sortTodos at ht
  rw [List.mem_mergeSort] at ht
  exact beq_iff_eq.mp (List.mem_filter.mp ht).2

/-- Witness for `C6_user_isolation`: adding another user's document to
the store does not change user `u1`'s dashboard list. -/
theorem C6_user_isolation_witness :
    subscribedTodos [sampleTask, otherUserTask] "u1" = subscribedTodos [sampleTask] "u1" ∧
    dashboardTasks [sampleTask, otherUserTask] "u1" = dashboardTasks [sampleTask] "u1" := by
  have h : subscribedTodos [sampleTask, otherUserTask] "u1" =
      subscribedTodos [sampleTask] "u1" := by decide
  exact ⟨h, (C6_user_isolation [sampleTask, otherUserTask] [sampleTask] "u1" h).1⟩

/-- `find?` over an append whose left part has no hit. -/
theorem find?_append_of_none {α : Type} (p : α → Bool) (l1 l2 : List α)
    (h : l1.find? p = none) : (l1 ++ l2).find? p = l2.find? p := by
  induction l1 with
  | nil => rfl
  | cons a l ih =>
    rw [List.find?_cons] at h
    cases hp : p a with
    | true => rw [hp] at h; exact Option.noConfusion h
    | false =>
      rw [hp] at h
      rw [List.cons_append, List.find?_cons, hp]
      exact ih h

/-- C7: delete followed by the toast's undo restores the task record.
`deleteTodo` removes the document and saves the task object for the
undo action; the undo writes it back under the same id, so the store
again resolves that id to the very same record. -/
theorem C7_delete_undo_roundtrip (s : AppState) (id : String) (t : Todo)
    (h : s.todos.find? (fun x => x.id == id) = some t) :
    (deleteTodo id s).2 = some t ∧
    ((deleteTodo id s).1).todos.find? (fun x => x.id == id) = none ∧
    (undoDelete id t ((deleteTodo id s).1)).todos.find? (fun x => x.id == id) = some t := by
  have hpt : (t.id == id) = true := by
    have := List.find?_some h
    simpa using this
  have hdel : deleteTodo id s =
      ({ s with todos := s.todos.filter (fun x => !(x.id == id)) }, some t) := by
    unfold deleteTodo
    rw [h]
  have hfiltered : ∀ x ∈ s.todos.filter (fun x => !(x.id == id)), ¬(x.id == id) = true := by
    intro x hx
    have hb := (List.mem_filter.mp hx).2
    simp only [Bool.not_eq_true'] at hb
    simp [hb]
  have hnone : (s.todos.filter (fun x => !(x.id == id))).find? (fun x => x.id == id) = none :=
    List.find?_eq_none.mpr hfiltered
  have hany : (s.todos.filter (fun x => !(x.id == id))).any (fun x => x.id == id) = false := by
    rw [List.any_eq_false]
    exact hfiltered
  refine ⟨by rw [hdel], by rw [hdel]; exact hnone, ?_⟩
  rw [hdel]
  unfold undoDelete setDocTodo
  simp only [hany, Bool.false_eq_true, if_false]
  rw [find?_append_of_none _ _ _ hnone, List.find?_cons, hpt]

/-- Witness for `C7_delete_undo_roundtrip`: deleting and restoring the
sample task. -/
theorem C7_delete_undo_roundtrip_witness :
    sampleState.todos.find? (fun x => x.id == "t1") = some sampleTask ∧
    (deleteTodo "t1" sampleState).2 = some sampleTask ∧
    ((deleteTodo "t1" sampleState).1).todos.find? (fun x => x.id == "t1") = none ∧
    (undoDelete "t1" sampleTask ((deleteTodo "t1" sampleState).1)).todos.find?
        (fun x => x.id == "t1") = some sampleTask := by
  have h : sampleState.todos.find? (fun x => x.id == "t1") = some sampleTask := by decide
  have hr := C7_delete_undo_roundtrip sampleState "t1" sampleTask h
  exact ⟨h, hr.1, hr.2.1, hr.2.2⟩

/-- C10: `addTodo` is a no-op when both the description and the patient
name trim to empty; otherwise it appends exactly one new document with
`completed = false`, status `todo`, the user's uid and the selected
category, priority, due date and due time, and clears the description,
patient, due-date and due-time inputs (category and priority stay). -/
theorem C10_addTodo_behaviour (form : FormState) (uid freshId : String) (nowTs : Int)
    (s : AppState) :
    (jsTrimStr form.input = "" ∧ jsTrimStr form.patientInput = "" →
      addTodo form uid freshId nowTs s = (s, form)) ∧
    (¬(jsTrimStr form.input = "" ∧ jsTrimStr form.patientInput = "") →
      (addTodo form uid freshId nowTs s).1.todos =
        s.todos ++ [newTodoDoc form uid freshId nowTs] ∧
      (addTodo form uid freshId nowTs s).2 = clearedForm form) ∧
    (newTodoDoc form uid freshId nowTs).completed = false ∧
    (newTodoDoc form uid freshId nowTs).status = Status.todo ∧
    (newTodoDoc form uid freshId nowTs).uid = uid ∧
    (newTodoDoc form uid freshId nowTs).category = form.category ∧
    (newTodoDoc form uid freshId nowTs).priority = form.priority ∧
    (newTodoDoc form uid freshId nowTs).dueDate = form.dueDate ∧
    (newTodoDoc form uid freshId nowTs).dueTime = form.dueTime ∧
    (clearedForm form).input = "" ∧
    (clearedForm form).patientInput = "" ∧
    (clearedForm form).dueDate = none ∧
    (clearedForm form).dueTime = none ∧
    (clearedForm form).category = form.category ∧
    (clearedForm form).priority = form.priority := by
  refine ⟨?_, ?_, rfl, rfl, rfl, rfl, rfl, rfl, rfl, rfl, rfl, rfl, rfl, rfl, rfl⟩
  · rintro ⟨h1, h2⟩
    unfold addTodo
    simp [h1, h2]
  · intro h
    have hcond : (jsTrimStr form.input == "" && jsTrimStr form.patientInput == "") ≠ true := by
      intro hc
      rw [Bool.and_eq_true] at hc
      exact h ⟨beq_iff_eq.mp hc.1, beq_iff_eq.mp hc.2⟩
    unfold addTodo
    rw [if_neg hcond]
    exact ⟨rfl, rfl⟩

/-- Witness for `C10_addTodo_behaviour`: a whitespace-only submission is
dropped; a filled form appends its one document. -/
theorem C10_addTodo_behaviour_witness :
    (jsTrimStr "  " = "" ∧ jsTrimStr "" = "") ∧
    addTodo { input := "  ", patientInput := "", dueDate := none, dueTime := none
              category := "General", priority := .medium } "u1" "n1" 99 sampleState =
      (sampleState, { input := "  ", patientInput := "", dueDate := none, dueTime := none
                      category := "General", priority := .medium }) ∧
    (addTodo { input := "Review OCT", patientInput := "Smith", dueDate := some 2
               dueTime := some (9, 0), category := "General", priority := .high }
        "u1" "n2" 99 sampleState).1.todos =
      sampleState.todos ++
        [newTodoDoc { input := "Review OCT", patientInput := "Smith", dueDate := some 2
                      dueTime := some (9, 0), category := "General", priority := .high }
          "u1" "n2" 99] := by
  have he : jsTrimStr "  " = "" ∧ jsTrimStr "" = "" := by constructor <;> decide
  refine ⟨he, (C10_addTodo_behaviour _ "u1" "n1" 99 sampleState).1 he, ?_⟩
  refine ((C10_addTodo_behaviour _ "u1" "n2" 99 sampleState).2.1 ?_).1
  intro hc
  exact absurd hc.1 (by decide)

/-- The event state is untouched by `updateStatus`. -/
theorem updateStatus_events_frame (t : Todo) (s : AppState) :
    (updateStatus t s).googleEvents = s.googleEvents ∧
    (updateStatus t s).outlookEvents = s.outlookEvents := by
  simp only [updateStatus]
  split <;> exact ⟨rfl, rfl⟩

/-- The event state is untouched by `toggleComplete`. -/
theorem toggleComplete_events_frame (t : Todo) (s : AppState) :
    (toggleComplete t s).googleEvents = s.googleEvents ∧
    (toggleComplete t s).outlookEvents = s.outlookEvents := by
  simp only [toggleComplete]
  split <;> exact ⟨rfl, rfl⟩

/-- The event state is untouched by `handleDrop`. -/
theorem handleDrop_events_frame (taskId : String) (ns : Status) (s : AppState) :
    (handleDrop taskId ns s).googleEvents = s.googleEvents ∧
    (handleDrop taskId ns s).outlookEvents = s.outlookEvents := by
  simp only [handleDrop]
  by_cases h1 : (taskId == "") = true
  · rw [if_pos h1]; exact ⟨rfl, rfl⟩
  · rw [if_neg h1]
    by_cases h2 : (ns == Status.done) = true
    · rw [if_pos h2]
      cases hfind : s.todos.find? (fun t => t.id == taskId) with
      | none => exact ⟨rfl, rfl⟩
      | some task =>
        by_cases h3 : isReferralCategory task = true <;>
          exact ⟨by simp [h3], by simp [h3]⟩
    · rw [if_neg h2]; exact ⟨rfl, rfl⟩

/-- The event state is untouched by `confirmReferralCompletion`. -/
theorem confirmReferral_events_frame (method : String) (s : AppState) :
    (confirmReferralCompletion method s).googleEvents = s.googleEvents ∧
    (confirmReferralCompletion method s).outlookEvents = s.outlookEvents := by
  unfold confirmReferralCompletion
  cases s.taskToComplete <;> exact ⟨rfl, rfl⟩

/-- The event state is untouched by `addTodo`. -/
theorem addTodo_events_frame (form : FormState) (uid freshId : String) (nowTs : Int)
    (s : AppState) :
    ((addTodo form uid freshId nowTs s).1).googleEvents = s.googleEvents ∧
    ((addTodo form uid freshId nowTs s).1).outlookEvents = s.outlookEvents := by
  unfold addTodo
  split <;> exact ⟨rfl, rfl⟩

/-- The event state is untouched by `deleteTodo`. -/
theorem deleteTodo_events_frame (id : String) (s : AppState) :
    ((deleteTodo id s).1).googleEvents = s.googleEvents ∧
    ((deleteTodo id s).1).outlookEvents = s.outlookEvents := by
  unfold deleteTodo
  cases s.todos.find? (fun t => t.id == id) <;> exact ⟨rfl, rfl⟩

/-- The event state is untouched by the delete-undo write. -/
theorem undoDelete_events_frame (id : String) (saved : Todo) (s : AppState) :
    (undoDelete id saved s).googleEvents = s.googleEvents ∧
    (undoDelete id saved s).outlookEvents = s.outlookEvents := by
  unfold undoDelete setDocTodo
  split <;> exact ⟨rfl, rfl⟩

/-- The requests of `loadGoogleEvents` are GETs. -/
theorem loadGoogleRequests_get :
    (loadGoogleRequests.all (fun r => r.method == "GET")) = true := rfl

/-- The requests of `loadOutlookData` are GETs. -/
theorem loadOutlookRequests_get (saved : List (String × Bool))
    (cals : Option (List RawOutlookCalendar)) :
    ((loadOutlookRequests saved cals).all (fun r => r.method == "GET")) = true := by
  cases cals with
  | none => rfl
  | some cs =>
    simp only [loadOutlookRequests, List.all_cons, Bool.and_eq_true]
    refine ⟨rfl, ?_⟩
    rw [List.all_eq_true]
    intro r hr
    rw [List.mem_map] at hr
    obtain ⟨c, -, rfl⟩ := hr
    rfl

/-- C8: the external calendars are a read-only projection.  Every HTTP
request any modelled operation issues to the third-party calendar APIs
is a GET; the task mutations issue no calendar request at all and leave
the Google/Outlook event state untouched; and the calendar loads leave
the task store untouched (they only map responses into local event
state for display). -/
theorem C8_external_calendar_readonly (op : Op) (s : AppState) :
    (op.issues.all (fun r => r.method == "GET")) = true ∧
    (op.isTaskMutation = true →
      op.issues = [] ∧
      (op.step s).googleEvents = s.googleEvents ∧
      (op.step s).outlookEvents = s.outlookEvents) ∧
    (op.isCalendarLoad = true → (op.step s).todos = s.todos) := by
  cases op with
  | updateStatusOp t =>
    exact ⟨rfl, fun _ => ⟨rfl, (updateStatus_events_frame t s).1,
      (updateStatus_events_frame t s).2⟩, fun hl => by simp [Op.isCalendarLoad] at hl⟩
  | toggleCompleteOp t =>
    exact ⟨rfl, fun _ => ⟨rfl, (toggleComplete_events_frame t s).1,
      (toggleComplete_events_frame t s).2⟩, fun hl => by simp [Op.isCalendarLoad] at hl⟩
  | handleDropOp taskId ns =>
    exact ⟨rfl, fun _ => ⟨rfl, (handleDrop_events_frame taskId ns s).1,
      (handleDrop_events_frame taskId ns s).2⟩, fun hl => by simp [Op.isCalendarLoad] at hl⟩
  | confirmReferralOp method =>
    exact ⟨rfl, fun _ => ⟨rfl, (confirmReferral_events_frame method s).1,
      (confirmReferral_events_frame method s).2⟩, fun hl => by simp [Op.isCalendarLoad] at hl⟩
  | addTodoOp form uid freshId nowTs =>
    exact ⟨rfl, fun _ => ⟨rfl, (addTodo_events_frame form uid freshId nowTs s).1,
      (addTodo_events_frame form uid freshId nowTs s).2⟩,
      fun hl => by simp [Op.isCalendarLoad] at hl⟩
  | deleteTodoOp id =>
    exact ⟨rfl, fun _ => ⟨rfl, (deleteTodo_events_frame id s).1,
      (deleteTodo_events_frame id s).2⟩, fun hl => by simp [Op.isCalendarLoad] at hl⟩
  | undoDeleteOp id saved =>
    exact ⟨rfl, fun _ => ⟨rfl, (undoDelete_events_frame id saved s).1,
      (undoDelete_events_frame id saved s).2⟩, fun hl => by simp [Op.isCalendarLoad] at hl⟩
  | saveEditOp base f =>
    exact ⟨rfl, fun _ => ⟨rfl, rfl, rfl⟩, fun hl => by simp [Op.isCalendarLoad] at hl⟩
  | loadGoogleOp resp =>
    refine ⟨loadGoogleRequests_get, fun hm => by simp [Op.isTaskMutation] at hm, fun _ => ?_⟩
    cases resp <;> rfl
  | loadOutlookOp saved cals events =>
    refine ⟨loadOutlookRequests_get saved cals,
      fun hm => by simp [Op.isTaskMutation] at hm, fun _ => ?_⟩
    cases cals <;> rfl

/-- Witness for `C8_external_calendar_readonly`: an Outlook load with
one active calendar issues two GETs and leaves the tasks alone; a status
cycle leaves the event state alone. -/
theorem C8_external_calendar_readonly_witness :
    ((Op.loadOutlookOp [] (some [{ id := "c1", name := "Work", isDefaultCalendar := true }])
        (fun _ => [])).isCalendarLoad = true ∧
      ((Op.loadOutlookOp [] (some [{ id := "c1", name := "Work", isDefaultCalendar := true }])
          (fun _ => [])).step sampleState).todos = sampleState.todos) ∧
    ((Op.updateStatusOp sampleTask).isTaskMutation = true ∧
      ((Op.updateStatusOp sampleTask).step sampleState).googleEvents =
        sampleState.googleEvents) := by
  refine ⟨⟨rfl, ?_⟩, ⟨rfl, ?_⟩⟩
  · exact (C8_external_calendar_readonly
      (Op.loadOutlookOp [] (some [{ id := "c1", name := "Work", isDefaultCalendar := true }])
        (fun _ => [])) sampleState).2.2 rfl
  · exact ((C8_external_calendar_readonly (Op.updateStatusOp sampleTask) sampleState).2.1
      rfl).2.1

/-! ### Slash-command lemmas (C5) -/

theorem splitSp_ne_nil (l : List Char) : splitSp l ≠ [] := by
  cases l with
  | nil => simp [splitSp]
  | cons c cs =>
    cases hs : splitSp cs with
    | nil => simp [splitSp, hs]
    | cons w ws =>
      by_cases hc : c = ' ' <;> simp [splitSp, hs, hc]

/-- One unfolding step of `splitSp` when the tail's split is known. -/
theorem splitSp_cons_eq {c : Char} {cs u : List Char} {us : List (List Char)}
    (hs : splitSp cs = u :: us) :
    splitSp (c :: cs) = if c = ' ' then [] :: u :: us else (c :: u) :: us := by
  conv_lhs => rw [show splitSp (c :: cs) = (match splitSp cs with
    | [] => [[c]]
    | w :: ws => if c = ' ' then [] :: w :: ws else (c :: w) :: ws) from rfl]
  rw [hs]

theorem splitSp_of_no_space (w : List Char) (hw : ∀ c ∈ w, c ≠ ' ') :
    splitSp w = [w] := by
  induction w with
  | nil => rfl
  | cons c cs ih =>
    have hc : c ≠ ' ' := hw c (List.mem_cons_self c cs)
    have ihs : splitSp cs = [cs] := ih (fun x hx => hw x (List.mem_cons_of_mem c hx))
    simp only [splitSp, ihs]
    rw [if_neg hc]

theorem two_le_splitSp_length (l : List Char) (h : ' ' ∈ l) :
    2 ≤ (splitSp l).length := by
  induction l with
  | nil => cases h
  | cons c cs ih =>
    obtain ⟨u, us, hs⟩ : ∃ a b, splitSp cs = a :: b := by
      cases h' : splitSp cs with
      | nil => exact absurd h' (splitSp_ne_nil cs)
      | cons a b => exact ⟨a, b, rfl⟩
    by_cases hc : c = ' '
    · subst hc
      rw [splitSp_cons_eq hs, if_pos rfl]
      simp
    · have hcs : ' ' ∈ cs := by
        rcases List.mem_cons.mp h with h1 | h1
        · exact absurd h1.symm hc
        · exact h1
      have h2 := ih hcs
      rw [hs] at h2
      rw [splitSp_cons_eq hs, if_neg hc]
      simpa using h2

theorem getLastD_irrel {α : Type} (l : List α) (h : l ≠ []) (d d' : α) :
    l.getLastD d = l.getLastD d' := by
  rw [List.getLastD_eq_getLast?, List.getLastD_eq_getLast?]
  cases hl : l.getLast? with
  | none => exact absurd (List.getLast?_eq_none_iff.mp hl) h
  | some a => rfl

/-- The last chunk of the space-split of `x ++ w` is `w`, when `w` is
space-free and `x` is empty or ends in a space. -/
theorem lastWord_splitSp_append (x : List Char) (w : List Char)
    (hw : ∀ c ∈ w, c ≠ ' ') (hx : x = [] ∨ x.getLast? = some ' ') :
    (splitSp (x ++ w)).getLastD [] = w := by
  induction x with
  | nil => rw [List.nil_append, splitSp_of_no_space w hw]; rfl
  | cons c x' ih =>
    rcases hx with hx | hx
    · exact absurd hx (List.cons_ne_nil c x')
    cases x' with
    | nil =>
      have hc : c = ' ' := by simpa using hx
      subst hc
      obtain ⟨u, us, hs⟩ : ∃ a b, splitSp w = a :: b := by
        cases h' : splitSp w with
        | nil => exact absurd h' (splitSp_ne_nil w)
        | cons a b => exact ⟨a, b, rfl⟩
      have e : splitSp ([' '] ++ w) = [] :: u :: us := by
        rw [show ([' '] : List Char) ++ w = ' ' :: w from rfl,
          splitSp_cons_eq hs, if_pos rfl]
      rw [e, List.getLastD_cons, ← hs, splitSp_of_no_space w hw]
      rfl
    | cons cc x'' =>
      have hx2 : (cc :: x'').getLast? = some ' ' := by
        rw [List.getLast?_cons_cons] at hx
        exact hx
      have ihx := ih (Or.inr hx2)
      have hsp : ' ' ∈ (cc :: x'') ++ w :=
        List.mem_append.mpr (Or.inl (List.mem_of_mem_getLast? (Option.mem_def.mpr hx2)))
      have h2 := two_le_splitSp_length _ hsp
      obtain ⟨u, us, hs⟩ : ∃ a b, splitSp ((cc :: x'') ++ w) = a :: b := by
        cases h' : splitSp ((cc :: x'') ++ w) with
        | nil => exact absurd h' (splitSp_ne_nil _)
        | cons a b => exact ⟨a, b, rfl⟩
      rw [hs] at h2 ihx
      have hus : us ≠ [] := by
        cases us with
        | nil => simp at h2
        | cons a b => exact List.cons_ne_nil a b
      by_cases hc : c = ' '
      · have e : splitSp ((c :: cc :: x'') ++ w) = [] :: u :: us := by
          rw [show (c :: cc :: x'') ++ w = c :: ((cc :: x'') ++ w) from rfl,
            splitSp_cons_eq hs, if_pos hc]
        rw [e, List.getLastD_cons]
        exact ihx
      · have e : splitSp ((c :: cc :: x'') ++ w) = (c :: u) :: us := by
          rw [show (c :: cc :: x'') ++ w = c :: ((cc :: x'') ++ w) from rfl,
            splitSp_cons_eq hs, if_neg hc]
        rw [e, List.getLastD_cons]
        rw [List.getLastD_cons] at ihx
        rw [getLastD_irrel us hus (c :: u) u]
        exact ihx

theorem dropWhile_eq_self_of_all {p : Char → Bool} (l : List Char)
    (h : ∀ c ∈ l, p c = false) : l.dropWhile p = l := by
  cases l with
  | nil => rfl
  | cons c cs =>
    rw [List.dropWhile_cons, h c (List.mem_cons_self c cs)]
    simp

/-- Trimming `p ++ w ++ " "` for a non-empty whitespace-free `w` strips
the final space and the leading whitespace of `p`. -/
theorem jsTrim_append_word (p w : List Char) (hw1 : w ≠ [])
    (hw : ∀ c ∈ w, c.isWhitespace = false) :
    jsTrim (p ++ w ++ [' ']) = (p.dropWhile Char.isWhitespace) ++ w := by
  unfold jsTrim
  rw [List.append_assoc]
  have hdw : (p ++ (w ++ [' '])).dropWhile Char.isWhitespace =
      (p.dropWhile Char.isWhitespace) ++ (w ++ [' ']) := by
    rw [List.dropWhile_append]
    by_cases hA : (p.dropWhile Char.isWhitespace).isEmpty = true
    · rw [if_pos hA, List.isEmpty_iff.mp hA, List.nil_append]
      rw [List.dropWhile_append, dropWhile_eq_self_of_all w hw]
      rw [if_neg (by simp [List.isEmpty_iff, hw1])]
    · rw [if_neg hA]
  rw [hdw]
  have h1 : (((p.dropWhile Char.isWhitespace) ++ (w ++ [' '])).reverse) =
      ' ' :: (w.reverse ++ (p.dropWhile Char.isWhitespace).reverse) := by
    simp [List.reverse_append]
  rw [h1, List.dropWhile_cons,
    if_pos (show Char.isWhitespace ' ' = true from rfl)]
  rw [List.dropWhile_append,
    dropWhile_eq_self_of_all w.reverse (fun c hc => hw c (List.mem_reverse.mp hc)),
    if_neg (by simp [List.isEmpty_iff, hw1])]
  simp [List.reverse_append]

/-- The last word the source computes for `p ++ w ++ " "`. -/
theorem lastWordOf_append_word (p w : List Char) (hw1 : w ≠ [])
    (hw : ∀ c ∈ w, c.isWhitespace = false)
    (hp : p = [] ∨ p.getLast? = some ' ') :
    lastWordOf (p ++ w ++ [' ']) = w := by
  unfold lastWordOf
  rw [jsTrim_append_word p w hw1 hw]
  apply lastWord_splitSp_append
  · intro c hc he
    subst he
    exact absurd (hw ' ' hc) (by decide)
  · rcases hp with rfl | hp
    · exact Or.inl rfl
    · by_cases hA : p.dropWhile Char.isWhitespace = []
      · exact Or.inl hA
      · right
        obtain ⟨t, ht⟩ := List.dropWhile_suffix (l := p) Char.isWhitespace
        rw [← ht, List.getLast?_append] at hp
        cases hAl : (p.dropWhile Char.isWhitespace).getLast? with
        | none => exact absurd (List.getLast?_eq_none_iff.mp hAl) hA
        | some a =>
          rw [hAl] at hp
          simp only [Option.or_some] at hp
          exact hp

/-- C5 counterexample: with the default commands and the input
`"/vf␣␣"` (trigger followed by two spaces), the last
whitespace-separated word is the trigger `"/vf"`, but the source slices
a fixed `trigger.length + 1` characters off the end, leaving the stray
`"/"` in `"/Visual Fields Check "` — not the claimed replacement of the
final word, which would give `"Visual Fields Check "`. -/
theorem C5_counterexample :
    handleInputChange DEFAULT_SLASH_COMMANDS ("/vf  ".toList) =
      "/Visual Fields Check ".toList ∧
    lastWhitespaceWord ("/vf  ".toList) = "/vf".toList ∧
    handleInputChangeSpec DEFAULT_SLASH_COMMANDS ("/vf  ".toList) =
      "Visual Fields Check ".toList ∧
    handleInputChange DEFAULT_SLASH_COMMANDS ("/vf  ".toList) ≠
      handleInputChangeSpec DEFAULT_SLASH_COMMANDS ("/vf  ".toList) := by
  refine ⟨by decide, by decide, by decide, by decide⟩

/-- C5 (amended): `handleInputChange` sets the input verbatim unless the
value ends in a space and the last word of the trimmed, space-split
value is a configured trigger; in that case it removes the last
`trigger.length + 1` characters and appends the expansion and a single
space.  When the value is `p ++ trigger ++ " "` with `p` empty or
ending in a space and the trigger whitespace-free — in particular for
any value with exactly one space after the trigger — this is precisely
the claimed behaviour: the final word is replaced by the expansion
followed by a single space. -/
theorem C5_handleInputChange_expansion (cmds : List SlashCommand)
    (val p w : List Char) (m : SlashCommand) :
    (val.getLast? ≠ some ' ' → handleInputChange cmds val = val) ∧
    (val.getLast? = some ' ' →
      cmds.find? (fun sc => sc.trigger == lastWordOf val) = none →
      handleInputChange cmds val = val) ∧
    (val.getLast? = some ' ' →
      cmds.find? (fun sc => sc.trigger == lastWordOf val) = some m →
      handleInputChange cmds val =
        (val.take (val.length - ((lastWordOf val).length + 1))) ++ m.expansion ++ [' ']) ∧
    (cmds.find? (fun sc => sc.trigger == w) = some m →
      w ≠ [] →
      (∀ c ∈ w, c.isWhitespace = false) →
      (p = [] ∨ p.getLast? = some ' ') →
      handleInputChange cmds (p ++ w ++ [' ']) = p ++ m.expansion ++ [' ']) := by
  refine ⟨?_, ?_, ?_, ?_⟩
  · intro h
    unfold handleInputChange
    rw [if_neg h]
  · intro h hnone
    simp only [handleInputChange]
    rw [if_pos h, hnone]
  · intro h hsome
    simp only [handleInputChange]
    rw [if_pos h, hsome]
  · intro hfind hw1 hwc hp
    have hlast : (p ++ w ++ [' ']).getLast? = some ' ' := List.getLast?_concat _
    have hword := lastWordOf_append_word p w hw1 hwc hp
    simp only [handleInputChange]
    rw [if_pos hlast, hword, hfind]
    have hlen : (p ++ w ++ [' ']).length - (w.length + 1) = p.length := by
      simp only [List.length_append, List.length_cons, List.length_nil]
      omega
    rw [hlen, List.append_assoc, List.take_left]

/-- Witness for `C5_handleInputChange_expansion`: typing `"Urgent /vf "`
expands to `"Urgent Visual Fields Check "`. -/
theorem C5_handleInputChange_expansion_witness :
    DEFAULT_SLASH_COMMANDS.find? (fun sc => sc.trigger == "/vf".toList) =
      some { trigger := "/vf".toList, expansion := "Visual Fields Check".toList } ∧
    handleInputChange DEFAULT_SLASH_COMMANDS ("Urgent /vf ".toList) =
      "Urgent Visual Fields Check ".toList := by
  refine ⟨by decide, ?_⟩
  have h := (C5_handleInputChange_expansion DEFAULT_SLASH_COMMANDS []
      ("Urgent ".toList) ("/vf".toList)
      { trigger := "/vf".toList, expansion := "Visual Fields Check".toList }).2.2.2
    (by decide) (by decide) (by decide) (Or.inr (by decide))
  rw [show ("Urgent /vf ".toList : List Char) =
      "Urgent ".toList ++ "/vf".toList ++ [' '] by decide]
  rw [h]
  decide

end Dashboard
